import Mathlib

/-!
Verification of the Stock-Market-Simulator's Python layer (the simulation
harness `engine.py`, the strategy base class `base.py`, and the market-maker
strategy `market_maker.py`) together with a specification-level model of the
native portfolio ledger.

Callbacks (strategy methods and externally registered callbacks) are arbitrary
Python code; a dispatch of one event call either returns normally or raises an
exception.  We model a callback's behaviour on the event being dispatched by a
boolean flag (`true` = raises), and we model a dispatch method by the sequence
of observable actions it performs (book update, callback invocations, error
logging).  Exceptions are caught by the `try/except` blocks in the source, so a
dispatch function is total: it returns its whole action trace and never
propagates a callback exception.

Python `float` values are modelled as rationals (`ℚ`) and Python `int` as `ℤ`
(or `ℕ` for values that are only ever incremented from zero).
-/

/-- Side of an order (`simulator_core.OrderSide`). -/
inductive OrderSide where
  | BUY
  | SELL
deriving DecidableEq

/-- Order type (`simulator_core.OrderType`). -/
inductive OrderType where
  | MARKET
  | LIMIT
deriving DecidableEq

/-- A market-data tick (`simulator_core.MarketData`): fields used by the
Python layer. -/
structure MarketData where
  symbol : String
  price : ℚ
deriving DecidableEq

/-- An order (`simulator_core.Order`): fields used by the Python layer.  The
`id` is assigned by the native engine when the order is admitted. -/
structure Order where
  id : Nat
  participant_id : String
  symbol : String
  side : OrderSide
  quantity : ℤ
  type : OrderType
  price : ℚ
deriving DecidableEq

/-- A trade (`simulator_core.Trade`): fields used by the Python layer. -/
structure Trade where
  id : Nat
  symbol : String
  buyer_id : String
  seller_id : String
  price : ℚ
  quantity : ℤ
deriving DecidableEq

/-- A registered strategy as seen by the dispatch loops of
`SimulationEngine`: its participant id together with the behaviour of each of
its callbacks on the event currently being dispatched (`true` = the call
raises an exception). -/
structure StratSpec where
  participant_id : String
  histRaises : Bool
  mdRaises : Bool
  tradeRaises : Bool
  rejRaises : Bool
deriving DecidableEq

/-- State of `SimulationEngine` (engine.py).  `strategies` mirrors
`self.strategies`; the three `…Callbacks` lists mirror `self.callbacks`, each
external callback modelled by whether it raises on the event being
dispatched; `bookSymbols` is the key set of `self.order_books`;
`hasPortfolio` / `hasMarketDataEngine` record whether `self.portfolio` /
`self.market_data_engine` are set (non-`None`); `market_makers` mirrors
`self.market_makers`; `mdeCallbackSet` / `mdeStarted` record whether
`set_callback` / `start` have been called on the market-data engine. -/
structure SimulationEngine where
  strategies : List StratSpec
  onTradeCallbacks : List Bool
  onMarketDataCallbacks : List Bool
  onRejectionCallbacks : List Bool
  bookSymbols : List String
  hasPortfolio : Bool
  hasMarketDataEngine : Bool
  running : Bool
  market_makers : Nat
  mdeCallbackSet : Bool
  mdeStarted : Bool
deriving DecidableEq

/-- Observable actions performed by the dispatch methods of
`SimulationEngine`. -/
inductive EngineAction where
  | updateBookPrice (symbol : String) (price : ℚ)
  | appendTradeLog
  | stratHist (i : Nat)
  | stratMarketData (i : Nat)
  | stratTrade (i : Nat)
  | stratRejection (i : Nat)
  | extMarketData (i : Nat)
  | extTrade (i : Nat)
  | extRejection (i : Nat)
  | logStratError (i : Nat)
  | logExtError (i : Nat)
deriving DecidableEq

/-- Body of the strategy loop of `_on_market_data` (engine.py lines 150-155)
for the strategy at position `i`: inside one `try`, the harness calls
`update_market_data_history` and then `on_market_data`; an exception from
either is caught and logged, skipping the rest of the `try` body only. -/
def stratMarketDataBlock (i : Nat) (s : StratSpec) : List EngineAction :=
  if s.histRaises then [.stratHist i, .logStratError i]
  else if s.mdRaises then [.stratHist i, .stratMarketData i, .logStratError i]
  else [.stratHist i, .stratMarketData i]

/-- Body of the strategy loop of `_on_trade` (engine.py lines 170-174). -/
def stratTradeBlock (i : Nat) (s : StratSpec) : List EngineAction :=
  if s.tradeRaises then [.stratTrade i, .logStratError i]
  else [.stratTrade i]

/-- Body of the strategy loop of `_on_order_rejection` (engine.py lines
187-192): the strategy's `on_order_rejection` is called only when the
strategy's `participant_id` equals the rejected order's `participant_id`. -/
def stratRejectionBlock (pid : String) (i : Nat) (s : StratSpec) : List EngineAction :=
  if s.participant_id = pid then
    (if s.rejRaises then [.stratRejection i, .logStratError i]
     else [.stratRejection i])
  else []

/-- The `for strategy in self.strategies` loop, with `i` the position of the
first remaining strategy in registration order. -/
def stratLoop (block : Nat → StratSpec → List EngineAction) : Nat → List StratSpec → List EngineAction
  | _, [] => []
  | i, s :: rest => block i s ++ stratLoop block (i + 1) rest

/-- Body of an external-callback loop (engine.py lines 158-162, 177-181,
195-199) for the callback at position `i`: the callback is invoked; an
exception is caught and logged. -/
def extBlock (mk : Nat → EngineAction) (i : Nat) (raises : Bool) : List EngineAction :=
  if raises then [mk i, .logExtError i] else [mk i]

/-- The `for callback in self.callbacks[...]` loop. -/
def extLoop (mk : Nat → EngineAction) : Nat → List Bool → List EngineAction
  | _, [] => []
  | i, b :: rest => extBlock mk i b ++ extLoop mk (i + 1) rest

/-- EngineAction trace of `SimulationEngine._on_market_data` (engine.py lines
139-162): return immediately if not running; update the order book's market
price when a book for the tick's symbol exists; notify every strategy
(history update then `on_market_data`, exceptions isolated per strategy);
then invoke the external `on_market_data` callbacks. -/
def onMarketDataTrace (eng : SimulationEngine) (md : MarketData) : List EngineAction :=
  if !eng.running then []
  else
    (if eng.bookSymbols.contains md.symbol then
        [.updateBookPrice md.symbol md.price]
      else [])
      ++ stratLoop stratMarketDataBlock 0 eng.strategies
      ++ extLoop .extMarketData 0 eng.onMarketDataCallbacks

/-- EngineAction trace of `SimulationEngine._on_trade` (engine.py lines 164-181):
append to the trade log, notify every strategy, then the external callbacks.
The `Trade` argument itself does not influence which callbacks run; the
callbacks' behaviour on it is modelled by the engine's raise flags. -/
def onTradeTrace (eng : SimulationEngine) (_t : Trade) : List EngineAction :=
  .appendTradeLog
    :: (stratLoop stratTradeBlock 0 eng.strategies
        ++ extLoop .extTrade 0 eng.onTradeCallbacks)

/-- EngineAction trace of `SimulationEngine._on_order_rejection` (engine.py lines
183-199): notify the strategies whose `participant_id` matches the rejected
order's, then invoke all external rejection callbacks. -/
def onOrderRejectionTrace (eng : SimulationEngine) (order : Order) : List EngineAction :=
  stratLoop (stratRejectionBlock order.participant_id) 0 eng.strategies
    ++ extLoop .extRejection 0 eng.onRejectionCallbacks

/-- Result of `SimulationEngine.start`: the engine state afterwards, the
error raised (if any), and the positions of the strategies whose
`initialize` was called, in order. -/
structure StartResult where
  engine : SimulationEngine
  error : Option String
  initializedStrategies : List Nat
deriving DecidableEq

/-- `SimulationEngine.start` (engine.py lines 100-118): raise `ValueError`
when the portfolio is unset, the market-data engine is unset, or the
`order_books` dict is empty (Python truthiness of `self.order_books`);
otherwise set `running`, initialize every strategy, set the market-data
callback and start the market-data engine. -/
def startEngine (eng : SimulationEngine) : StartResult :=
  if !eng.hasPortfolio || !eng.hasMarketDataEngine || eng.bookSymbols.isEmpty then
    { engine := eng
      error := some "Simulation not properly configured"
      initializedStrategies := [] }
  else
    { engine := { eng with running := true, mdeCallbackSet := true, mdeStarted := true }
      error := none
      initializedStrategies := List.range eng.strategies.length }

/-- The participant identifier assigned by `SimulationEngine.add_market_maker`
when the counter `self.market_makers` has value `n`:
`"__market_maker_" + str(n)` (engine.py line 59). -/
def marketMakerId (n : Nat) : String :=
  "__market_maker_" ++ Nat.repr n

/-- `SimulationEngine.add_market_maker` (engine.py lines 54-74), restricted to
the state this model tracks: increment `self.market_makers`, build the
identifier, add the participant (which creates the portfolio when absent) and
register a `MarketMakerStrategy` under that identifier.  Returns the new
engine state and the identifier used. -/
def addMarketMaker (eng : SimulationEngine) : SimulationEngine × String :=
  let n := eng.market_makers + 1
  let pid := marketMakerId n
  ({ eng with
      market_makers := n
      hasPortfolio := true
      strategies := eng.strategies ++
        [{ participant_id := pid, histRaises := false, mdRaises := false,
           tradeRaises := false, rejRaises := false }] },
   pid)

/-- Decimal digit characters of `n`, most significant first: a structurally
recursive counterpart of `Nat.toDigits 10` used to reason about `Nat.repr`. -/
def repChars (n : Nat) : List Char :=
  if n < 10 then [Nat.digitChar n]
  else repChars (n / 10) ++ [Nat.digitChar (n % 10)]
decreasing_by exact Nat.div_lt_self (by omega) (by omega)

/-- Numeric value of a decimal digit character. -/
def charDigitVal (c : Char) : Nat :=
  c.toNat - '0'.toNat

/-- Decimal value of a most-significant-first digit string. -/
def listVal (l : List Char) : Nat :=
  l.foldl (fun a c => 10 * a + charDigitVal c) 0

/-- The native order book (`simulator_core.OrderBook`) as seen by
`BaseStrategy.submit_order`: `add_order` assigns the next engine order id to
the submitted order and returns whether the order was accepted.  Both are
modelled abstractly as functions of the submitted order's data. -/
structure OrderBookModel where
  nextOrderId : Nat
  accepts : Order → Bool

/-- State of `BaseStrategy` (base.py) used by `submit_order`:
`order_books` is the dict handed over by `initialize` (`none` = key absent)
and `active_orders` the dict of orders this strategy tracks, keyed by order
id. -/
structure BaseStrategy where
  participant_id : String
  order_books : String → Option OrderBookModel
  active_orders : Nat → Option Order

/-- The `core.Order(...)` value constructed by `BaseStrategy.submit_order`
(base.py lines 51-58), with the id the book's `add_order` assigns to it. -/
def submittedOrder (self : BaseStrategy) (book : OrderBookModel) (symbol : String)
    (side : OrderSide) (quantity : ℤ) (order_type : OrderType) (price : ℚ) : Order :=
  { id := book.nextOrderId
    participant_id := self.participant_id
    symbol := symbol
    side := side
    quantity := quantity
    type := order_type
    price := price }

/-- Result of `BaseStrategy.submit_order`: the returned value, the strategy
state afterwards, and whether `add_order` was invoked. -/
structure SubmitResult where
  result : Option Order
  state : BaseStrategy
  calledAddOrder : Bool

/-- `BaseStrategy.submit_order` (base.py lines 44-65): return `None` without
submitting when no order book exists for the symbol; otherwise construct the
order and call `add_order`; on success record the order in `active_orders`
and return it, on failure return `None` leaving `active_orders` unchanged. -/
def submit_order (self : BaseStrategy) (symbol : String) (side : OrderSide)
    (quantity : ℤ) (order_type : OrderType) (price : ℚ) : SubmitResult :=
  match self.order_books symbol with
  | none => { result := none, state := self, calledAddOrder := false }
  | some book =>
    let order := submittedOrder self book symbol side quantity order_type price
    if book.accepts order then
      { result := some order
        state := { self with
          active_orders := fun i => if i = order.id then some order else self.active_orders i }
        calledAddOrder := true }
    else
      { result := none, state := self, calledAddOrder := true }

/-- Python slice `l[a:]` for an arbitrary integer `a`: a negative start
counts from the end (clamped at the front), a non-negative start drops that
many elements (clamped at the back). -/
def pySliceFrom {α : Type} (l : List α) (a : ℤ) : List α :=
  if a < 0 then l.drop ((l.length + a).toNat) else l.drop a.toNat

/-- `BaseStrategy.update_market_data_history` (base.py lines 111-121): ignore
ticks for symbols without an initialized history; otherwise append the tick
and, when the list exceeds 1000 entries, truncate it to its last 1000
(`self.market_data_history[symbol][-1000:]`). -/
def update_market_data_history (hist : String → Option (List MarketData))
    (md : MarketData) : String → Option (List MarketData) :=
  match hist md.symbol with
  | none => hist
  | some l =>
    let appended := l ++ [md]
    let trimmed := if appended.length > 1000 then pySliceFrom appended (-1000) else appended
    fun s => if s = md.symbol then some trimmed else hist s

/-- `BaseStrategy.get_market_data_history` (base.py lines 103-109): return
the Python slice `self.market_data_history[symbol][-lookback:]`, or `[]` for
an untracked symbol. -/
def get_market_data_history (hist : String → Option (List MarketData))
    (symbol : String) (lookback : ℤ) : List MarketData :=
  match hist symbol with
  | some l => pySliceFrom l (-lookback)
  | none => []

/-- Parameters of `MarketMakerStrategy` (market_maker.py lines 10-15). -/
structure MarketMakerStrategy where
  spread_bps : ℤ
  quote_size : ℤ
  max_position : ℤ
  inventory_skew : ℚ

/-- The quote prices computed by `MarketMakerStrategy._update_quotes`
(market_maker.py lines 62-75): `(bid_price, ask_price)` after the two
`max` clamps.  These are the limit prices carried by any bid/ask order the
strategy submits in lines 82-105. -/
def updateQuotesPrices (mm : MarketMakerStrategy) (current_price : ℚ)
    (current_position : ℤ) : ℚ × ℚ :=
  let half_spread := current_price * ((mm.spread_bps : ℚ) / 10000) / 2
  let inventory_ratio : ℚ := (current_position : ℚ) / (mm.max_position : ℚ)
  let skew_adjustment := inventory_ratio * mm.inventory_skew * half_spread
  let bid0 := current_price - half_spread - skew_adjustment
  let ask0 := current_price + half_spread - skew_adjustment
  let bid_price := max bid0 (1 / 100)
  let ask_price := max ask0 (bid_price + 1 / 100)
  (bid_price, ask_price)

/-- Modelled from the spec: the native portfolio ledger
(`simulator_core.Portfolio`, not part of the Python sources).  Per
participant it keeps a cash balance and a per-symbol position (spec §3,
§4.1); `participants` is the set of registered participant ids. -/
structure Portfolio where
  participants : Finset String
  cash : String → ℚ
  position : String → String → ℤ

/-- Modelled from the spec: the buyer's half of settlement (§4.1):
`buyer.cash -= qty * price; buyer.position[symbol] += qty`. -/
def applyBuy (p : Portfolio) (buyer symbol : String) (qty : ℤ) (price : ℚ) : Portfolio :=
  { p with
    cash := fun pid => if pid = buyer then p.cash pid - qty * price else p.cash pid
    position := fun pid s =>
      if pid = buyer then
        (if s = symbol then p.position pid s + qty else p.position pid s)
      else p.position pid s }

/-- Modelled from the spec: the seller's half of settlement (§4.1):
`seller.cash += qty * price; seller.position[symbol] -= qty`. -/
def applySell (p : Portfolio) (seller symbol : String) (qty : ℤ) (price : ℚ) : Portfolio :=
  { p with
    cash := fun pid => if pid = seller then p.cash pid + qty * price else p.cash pid
    position := fun pid s =>
      if pid = seller then
        (if s = symbol then p.position pid s - qty else p.position pid s)
      else p.position pid s }

/-- Modelled from the spec: `Portfolio.apply_trade` (§4.1), the atomic
settlement of a trade — the buyer's update followed by the seller's. -/
def applyTrade (p : Portfolio) (buyer seller symbol : String) (qty : ℤ) (price : ℚ) : Portfolio :=
  applySell (applyBuy p buyer symbol qty price) seller symbol qty price

/-- Aggregate mark-to-market value of the ledger (spec §8, invariant 1):
the sum over participants of cash plus the sum over `symbols` of position
times price. -/
def portfolioTotalValue (p : Portfolio) (symbols : Finset String)
    (priceOf : String → ℚ) : ℚ :=
  ∑ pid ∈ p.participants, (p.cash pid + ∑ s ∈ symbols, (p.position pid s : ℚ) * priceOf s)

/-- Classification of a dispatch action as a callback invocation: `(0, i)`
for the strategy at position `i`, `(1, i)` for the external callback at
position `i`, `none` for actions that are not callback invocations. -/
def actGroup : EngineAction → Option (Nat × Nat)
  | .stratHist i => some (0, i)
  | .stratMarketData i => some (0, i)
  | .stratTrade i => some (0, i)
  | .stratRejection i => some (0, i)
  | .extMarketData i => some (1, i)
  | .extTrade i => some (1, i)
  | .extRejection i => some (1, i)
  | _ => none

/-- Ordering constraint on a pair of dispatch actions occurring in this
order: a strategy invocation never follows an external invocation, and
within each of the two groups positions are non-decreasing (equal positions
arise only from the two calls made to one strategy in one dispatch). -/
def dispatchOrdered (a b : EngineAction) : Prop :=
  ∀ ga gb, actGroup a = some ga → actGroup b = some gb →
    ga.1 < gb.1 ∨ (ga.1 = gb.1 ∧ ga.2 ≤ gb.2)

/-- A concrete engine with one registered strategy, used to exhibit the
behaviour of rejection dispatch. -/
def engRejEx : SimulationEngine :=
  { strategies := [{ participant_id := "momentum_1", histRaises := false,
                     mdRaises := false, tradeRaises := false, rejRaises := false }]
    onTradeCallbacks := []
    onMarketDataCallbacks := []
    onRejectionCallbacks := [false]
    bookSymbols := ["AAPL"]
    hasPortfolio := true
    hasMarketDataEngine := true
    running := true
    market_makers := 0
    mdeCallbackSet := true
    mdeStarted := true }

/-- A concrete rejected order whose participant is not any registered
strategy of `engRejEx`. -/
def ordRejEx : Order :=
  { id := 1, participant_id := "alice", symbol := "AAPL", side := .BUY,
    quantity := 10, type := .LIMIT, price := 150 }

/-- A concrete market-data history map tracking one symbol with one stored
tick. -/
def histEx : String → Option (List MarketData) :=
  fun s => if s = "AAPL" then some [{ symbol := "AAPL", price := 150 }] else none

/-- A concrete trade event. -/
def tradeEx : Trade :=
  { id := 1, symbol := "AAPL", buyer_id := "alice", seller_id := "bob",
    price := 151, quantity := 10 }

/-- A concrete market-data tick for a symbol that has an order book in
`engRejEx`. -/
def mdEx : MarketData :=
  { symbol := "AAPL", price := 151 }

/-- A concrete two-participant ledger. -/
def pfEx : Portfolio :=
  { participants := {"alice", "bob"}
    cash := fun _ => 10000
    position := fun _ _ => 0 }

/-- A concrete order book model that accepts every order and assigns id 7. -/
def bookEx : OrderBookModel :=
  { nextOrderId := 7, accepts := fun _ => true }

/-- A concrete strategy state with one order book. -/
def stratEx : BaseStrategy :=
  { participant_id := "momentum_1"
    order_books := fun s => if s = "AAPL" then some bookEx else none
    active_orders := fun _ => none }

/-- Concrete market-maker parameters (the values used by
`SimulationEngine.add_market_maker`). -/
def mmEx : MarketMakerStrategy :=
  { spread_bps := 30, quote_size := 50, max_position := 500, inventory_skew := 3 / 10 }

/-! ### Helper lemmas about the dispatch loops -/

theorem mem_stratLoop_iff {block : Nat → StratSpec → List EngineAction} {a : EngineAction} :
    ∀ {i : Nat} {ss : List StratSpec},
      a ∈ stratLoop block i ss ↔
        ∃ k, ∃ hk : k < ss.length, a ∈ block (i + k) (ss.get ⟨k, hk⟩) := by
  intro i ss
  induction ss generalizing i with
  | nil => simp [stratLoop]
  | cons s rest ih =>
    rw [stratLoop, List.mem_append, ih]
    constructor
    · rintro (h | ⟨k, hk, h⟩)
      · exact ⟨0, by simp, by simpa using h⟩
      · exact ⟨k + 1, by simpa using hk, by
          simpa [Nat.add_comm, Nat.add_assoc, Nat.add_left_comm] using h⟩
    · rintro ⟨k, hk, h⟩
      cases k with
      | zero => exact Or.inl (by simpa using h)
      | succ k =>
        exact Or.inr ⟨k, by simpa using hk, by
          simpa [Nat.add_comm, Nat.add_assoc, Nat.add_left_comm] using h⟩

theorem mem_extLoop_iff {mk : Nat → EngineAction} {a : EngineAction} :
    ∀ {i : Nat} {bs : List Bool},
      a ∈ extLoop mk i bs ↔
        ∃ k, ∃ hk : k < bs.length, a ∈ extBlock mk (i + k) (bs.get ⟨k, hk⟩) := by
  intro i bs
  induction bs generalizing i with
  | nil => simp [extLoop]
  | cons b rest ih =>
    rw [extLoop, List.mem_append, ih]
    constructor
    · rintro (h | ⟨k, hk, h⟩)
      · exact ⟨0, by simp, by simpa using h⟩
      · exact ⟨k + 1, by simpa using hk, by
          simpa [Nat.add_comm, Nat.add_assoc, Nat.add_left_comm] using h⟩
    · rintro ⟨k, hk, h⟩
      cases k with
      | zero => exact Or.inl (by simpa using h)
      | succ k =>
        exact Or.inr ⟨k, by simpa using hk, by
          simpa [Nat.add_comm, Nat.add_assoc, Nat.add_left_comm] using h⟩

theorem mem_extBlock_iff {mk : Nat → EngineAction} {i : Nat} {b : Bool} {a : EngineAction} :
    a ∈ extBlock mk i b ↔ (a = mk i ∨ (b = true ∧ a = .logExtError i)) := by
  cases b <;> simp [extBlock]

theorem mem_stratMarketDataBlock_iff {i : Nat} {s : StratSpec} {a : EngineAction} :
    a ∈ stratMarketDataBlock i s ↔
      (a = .stratHist i ∨ (s.histRaises = false ∧ a = .stratMarketData i) ∨
        ((s.histRaises = true ∨ s.mdRaises = true) ∧ a = .logStratError i)) := by
  cases hh : s.histRaises <;> cases hm : s.mdRaises <;>
    simp [stratMarketDataBlock, hh, hm]

theorem mem_stratTradeBlock_iff {i : Nat} {s : StratSpec} {a : EngineAction} :
    a ∈ stratTradeBlock i s ↔
      (a = .stratTrade i ∨ (s.tradeRaises = true ∧ a = .logStratError i)) := by
  cases ht : s.tradeRaises <;> simp [stratTradeBlock, ht]

theorem mem_stratRejectionBlock_iff {pid : String} {i : Nat} {s : StratSpec} {a : EngineAction} :
    a ∈ stratRejectionBlock pid i s ↔
      (s.participant_id = pid ∧
        (a = .stratRejection i ∨ (s.rejRaises = true ∧ a = .logStratError i))) := by
  by_cases hp : s.participant_id = pid
  · cases hr : s.rejRaises <;> simp [stratRejectionBlock, hp, hr]
  · simp [stratRejectionBlock, hp]

theorem stratMarketDataBlock_group {i : Nat} {s : StratSpec} {a : EngineAction}
    (ha : a ∈ stratMarketDataBlock i s) {g : Nat × Nat} (hg : actGroup a = some g) :
    g = (0, i) := by
  rcases mem_stratMarketDataBlock_iff.mp ha with h | ⟨_, h⟩ | ⟨_, h⟩ <;>
    subst h <;> simp [actGroup] at hg <;> exact hg.symm

theorem stratTradeBlock_group {i : Nat} {s : StratSpec} {a : EngineAction}
    (ha : a ∈ stratTradeBlock i s) {g : Nat × Nat} (hg : actGroup a = some g) :
    g = (0, i) := by
  rcases mem_stratTradeBlock_iff.mp ha with h | ⟨_, h⟩ <;>
    subst h <;> simp [actGroup] at hg
  exact hg.symm

theorem stratRejectionBlock_group {pid : String} {i : Nat} {s : StratSpec} {a : EngineAction}
    (ha : a ∈ stratRejectionBlock pid i s) {g : Nat × Nat} (hg : actGroup a = some g) :
    g = (0, i) := by
  rcases mem_stratRejectionBlock_iff.mp ha with ⟨_, h | ⟨_, h⟩⟩ <;>
    subst h <;> simp [actGroup] at hg
  exact hg.symm

theorem stratLoop_group {block : Nat → StratSpec → List EngineAction}
    (hb : ∀ i s a, a ∈ block i s → ∀ g : Nat × Nat, actGroup a = some g → g = (0, i))
    {i : Nat} {ss : List StratSpec} {a : EngineAction} (ha : a ∈ stratLoop block i ss)
    {g : Nat × Nat} (hg : actGroup a = some g) :
    g.1 = 0 ∧ i ≤ g.2 := by
  rcases mem_stratLoop_iff.mp ha with ⟨k, hk, h⟩
  have := hb _ _ _ h g hg
  subst this
  exact ⟨rfl, Nat.le_add_right i k⟩

theorem extLoop_group {mk : Nat → EngineAction}
    (hm : ∀ j, ∀ g : Nat × Nat, actGroup (mk j) = some g → g = (1, j))
    {i : Nat} {bs : List Bool} {a : EngineAction} (ha : a ∈ extLoop mk i bs)
    {g : Nat × Nat} (hg : actGroup a = some g) :
    g.1 = 1 ∧ i ≤ g.2 := by
  rcases mem_extLoop_iff.mp ha with ⟨k, hk, h⟩
  rcases mem_extBlock_iff.mp h with h' | ⟨_, h'⟩
  · subst h'
    have := hm _ g hg
    subst this
    exact ⟨rfl, Nat.le_add_right i k⟩
  · subst h'
    simp [actGroup] at hg

theorem pairwise_stratLoop {block : Nat → StratSpec → List EngineAction}
    (hb : ∀ i s a, a ∈ block i s → ∀ g : Nat × Nat, actGroup a = some g → g = (0, i)) :
    ∀ (i : Nat) (ss : List StratSpec), (stratLoop block i ss).Pairwise dispatchOrdered := by
  intro i ss
  induction ss generalizing i with
  | nil => exact List.Pairwise.nil
  | cons s rest ih =>
    rw [stratLoop]
    refine List.pairwise_append.mpr ⟨?_, ih (i + 1), ?_⟩
    · refine List.pairwise_of_forall_mem_list ?_
      intro a ha b hbmem ga gb hga hgb
      have h1 := hb _ _ _ ha ga hga
      have h2 := hb _ _ _ hbmem gb hgb
      subst h1; subst h2
      exact Or.inr ⟨rfl, le_refl i⟩
    · intro a ha b hbmem ga gb hga hgb
      have h1 := hb _ _ _ ha ga hga
      have h2 := stratLoop_group hb hbmem hgb
      subst h1
      exact Or.inr ⟨h2.1.symm, by omega⟩

theorem pairwise_extLoop {mk : Nat → EngineAction}
    (hm : ∀ j, ∀ g : Nat × Nat, actGroup (mk j) = some g → g = (1, j)) :
    ∀ (i : Nat) (bs : List Bool), (extLoop mk i bs).Pairwise dispatchOrdered := by
  intro i bs
  induction bs generalizing i with
  | nil => exact List.Pairwise.nil
  | cons b rest ih =>
    rw [extLoop]
    refine List.pairwise_append.mpr ⟨?_, ih (i + 1), ?_⟩
    · refine List.pairwise_of_forall_mem_list ?_
      intro a ha c hc ga gc hga hgc
      rcases mem_extBlock_iff.mp ha with h' | ⟨_, h'⟩ <;> subst h'
      · rcases mem_extBlock_iff.mp hc with h'' | ⟨_, h''⟩ <;> subst h''
        · have h1 := hm _ ga hga
          have h2 := hm _ gc hgc
          subst h1; subst h2
          exact Or.inr ⟨rfl, le_refl i⟩
        · simp [actGroup] at hgc
      · simp [actGroup] at hga
    · intro a ha c hc ga gc hga hgc
      rcases mem_extBlock_iff.mp ha with h' | ⟨_, h'⟩ <;> subst h'
      · have h1 := hm _ ga hga
        have h2 := extLoop_group hm hc hgc
        subst h1
        exact Or.inr ⟨h2.1.symm, by omega⟩
      · simp [actGroup] at hga

theorem stratLoop_mem {block : Nat → StratSpec → List EngineAction}
    {ss : List StratSpec} (k : Fin ss.length) {a : EngineAction}
    (h : a ∈ block k.val (ss.get k)) : a ∈ stratLoop block 0 ss :=
  mem_stratLoop_iff.mpr ⟨k.val, k.isLt, by simpa using h⟩

theorem extLoop_mem {mk : Nat → EngineAction} {bs : List Bool} (k : Fin bs.length)
    {a : EngineAction} (h : a ∈ extBlock mk k.val (bs.get k)) : a ∈ extLoop mk 0 bs :=
  mem_extLoop_iff.mpr ⟨k.val, k.isLt, by simpa using h⟩

theorem cross_strat_ext {block : Nat → StratSpec → List EngineAction}
    {mk : Nat → EngineAction}
    (hb : ∀ i s a, a ∈ block i s → ∀ g : Nat × Nat, actGroup a = some g → g = (0, i))
    (hm : ∀ j, ∀ g : Nat × Nat, actGroup (mk j) = some g → g = (1, j))
    {i j : Nat} {ss : List StratSpec} {bs : List Bool} :
    ∀ a ∈ stratLoop block i ss, ∀ b ∈ extLoop mk j bs, dispatchOrdered a b := by
  intro a ha b hbm ga gb hga hgb
  have h1 := stratLoop_group hb ha hga
  have h2 := extLoop_group hm hbm hgb
  exact Or.inl (by omega)

theorem extMarketData_group : ∀ j, ∀ g : Nat × Nat,
    actGroup (EngineAction.extMarketData j) = some g → g = (1, j) := by
  intro j g hg
  simp [actGroup] at hg
  exact hg.symm

theorem extTrade_group : ∀ j, ∀ g : Nat × Nat,
    actGroup (EngineAction.extTrade j) = some g → g = (1, j) := by
  intro j g hg
  simp [actGroup] at hg
  exact hg.symm

theorem extRejection_group : ∀ j, ∀ g : Nat × Nat,
    actGroup (EngineAction.extRejection j) = some g → g = (1, j) := by
  intro j g hg
  simp [actGroup] at hg
  exact hg.symm

theorem dispatchOrdered_of_left_groupless {a : EngineAction}
    (h : ∀ g : Nat × Nat, actGroup a = some g → False) (b : EngineAction) :
    dispatchOrdered a b :=
  fun ga _ hga _ => absurd hga (h ga)

/-- C2: exception isolation of event dispatch.  The engine's raise flags are
universally quantified, so each membership below holds no matter which
strategy or external callbacks raise: every callback the dispatch rule
designates is still invoked, and a raising callback is caught and its error
logged (`logStratError` / `logExtError` mirror the `except` branches).  The
dispatchers are total functions on traces, so no exception propagates out of
`_on_market_data`, `_on_trade`, or `_on_order_rejection`. -/
theorem dispatch_exception_isolation (eng : SimulationEngine) (t : Trade)
    (md : MarketData) (order : Order) (hrun : eng.running = true) :
    (∀ k : Fin eng.strategies.length,
      EngineAction.stratTrade k.val ∈ onTradeTrace eng t ∧
      ((eng.strategies.get k).tradeRaises = true →
        EngineAction.logStratError k.val ∈ onTradeTrace eng t)) ∧
    (∀ k : Fin eng.onTradeCallbacks.length,
      EngineAction.extTrade k.val ∈ onTradeTrace eng t ∧
      (eng.onTradeCallbacks.get k = true →
        EngineAction.logExtError k.val ∈ onTradeTrace eng t)) ∧
    (∀ k : Fin eng.strategies.length,
      EngineAction.stratHist k.val ∈ onMarketDataTrace eng md ∧
      ((eng.strategies.get k).histRaises = false →
        EngineAction.stratMarketData k.val ∈ onMarketDataTrace eng md) ∧
      ((eng.strategies.get k).histRaises = true ∨ (eng.strategies.get k).mdRaises = true →
        EngineAction.logStratError k.val ∈ onMarketDataTrace eng md)) ∧
    (∀ k : Fin eng.onMarketDataCallbacks.length,
      EngineAction.extMarketData k.val ∈ onMarketDataTrace eng md ∧
      (eng.onMarketDataCallbacks.get k = true →
        EngineAction.logExtError k.val ∈ onMarketDataTrace eng md)) ∧
    (∀ k : Fin eng.strategies.length,
      (eng.strategies.get k).participant_id = order.participant_id →
        EngineAction.stratRejection k.val ∈ onOrderRejectionTrace eng order) ∧
    (∀ k : Fin eng.onRejectionCallbacks.length,
      EngineAction.extRejection k.val ∈ onOrderRejectionTrace eng order) := by
  have hmd : onMarketDataTrace eng md =
      (if eng.bookSymbols.contains md.symbol then
          [EngineAction.updateBookPrice md.symbol md.price] else [])
        ++ stratLoop stratMarketDataBlock 0 eng.strategies
        ++ extLoop .extMarketData 0 eng.onMarketDataCallbacks := by
    simp [onMarketDataTrace, hrun]
  refine ⟨?_, ?_, ?_, ?_, ?_, ?_⟩
  · intro k
    refine ⟨?_, ?_⟩
    · exact List.mem_cons_of_mem _ (List.mem_append_left _
        (stratLoop_mem k (mem_stratTradeBlock_iff.mpr (Or.inl rfl))))
    · intro hr
      exact List.mem_cons_of_mem _ (List.mem_append_left _
        (stratLoop_mem k (mem_stratTradeBlock_iff.mpr (Or.inr ⟨hr, rfl⟩))))
  · intro k
    refine ⟨?_, ?_⟩
    · exact List.mem_cons_of_mem _ (List.mem_append_right _
        (extLoop_mem k (mem_extBlock_iff.mpr (Or.inl rfl))))
    · intro hr
      exact List.mem_cons_of_mem _ (List.mem_append_right _
        (extLoop_mem k (mem_extBlock_iff.mpr (Or.inr ⟨hr, rfl⟩))))
  · intro k
    rw [hmd]
    refine ⟨?_, ?_, ?_⟩
    · exact List.mem_append_left _ (List.mem_append_right _
        (stratLoop_mem k (mem_stratMarketDataBlock_iff.mpr (Or.inl rfl))))
    · intro hh
      exact List.mem_append_left _ (List.mem_append_right _
        (stratLoop_mem k (mem_stratMarketDataBlock_iff.mpr (Or.inr (Or.inl ⟨hh, rfl⟩)))))
    · intro hlog
      exact List.mem_append_left _ (List.mem_append_right _
        (stratLoop_mem k (mem_stratMarketDataBlock_iff.mpr (Or.inr (Or.inr ⟨hlog, rfl⟩)))))
  · intro k
    rw [hmd]
    refine ⟨?_, ?_⟩
    · exact List.mem_append_right _ (extLoop_mem k (mem_extBlock_iff.mpr (Or.inl rfl)))
    · intro hr
      exact List.mem_append_right _ (extLoop_mem k (mem_extBlock_iff.mpr (Or.inr ⟨hr, rfl⟩)))
  · intro k hmatch
    exact List.mem_append_left _
      (stratLoop_mem k (mem_stratRejectionBlock_iff.mpr ⟨hmatch, Or.inl rfl⟩))
  · intro k
    exact List.mem_append_right _ (extLoop_mem k (mem_extBlock_iff.mpr (Or.inl rfl)))

/-- Witness for C2 at a concrete engine, trade, tick and order. -/
theorem dispatch_exception_isolation_witness :
    engRejEx.running = true ∧
    EngineAction.stratTrade 0 ∈ onTradeTrace engRejEx tradeEx ∧
    EngineAction.stratHist 0 ∈ onMarketDataTrace engRejEx mdEx ∧
    EngineAction.extRejection 0 ∈ onOrderRejectionTrace engRejEx ordRejEx := by
  have h := dispatch_exception_isolation engRejEx tradeEx mdEx ordRejEx rfl
  refine ⟨rfl, ?_, ?_, ?_⟩
  · exact (h.1 ⟨0, by decide⟩).1
  · exact (h.2.2.1 ⟨0, by decide⟩).1
  · exact h.2.2.2.2.2 ⟨0, by decide⟩

/-- C3 counterexample: `_on_order_rejection` does not invoke the
`on_order_rejection` callback of every registered strategy.  `engRejEx` has
exactly one registered strategy (participant `"momentum_1"`), yet for the
rejected order of participant `"alice"` that strategy's callback is never
invoked. -/
theorem rejection_dispatch_not_universal :
    engRejEx.strategies.length = 1 ∧
    EngineAction.stratRejection 0 ∉ onOrderRejectionTrace engRejEx ordRejEx := by
  constructor
  · rfl
  · decide

/-- C3 amended: on an order-rejection event the harness invokes a
registered strategy's `on_order_rejection` callback iff the strategy's
`participant_id` equals the rejected order's `participant_id` (engine.py
line 189); matching strategies are notified in registration order, and the
external rejection callbacks are all invoked afterwards. -/
theorem rejection_dispatch_filtered (eng : SimulationEngine) (order : Order) :
    (∀ k : Fin eng.strategies.length,
      (EngineAction.stratRejection k.val ∈ onOrderRejectionTrace eng order ↔
        (eng.strategies.get k).participant_id = order.participant_id)) ∧
    (∀ k : Fin eng.onRejectionCallbacks.length,
      EngineAction.extRejection k.val ∈ onOrderRejectionTrace eng order) ∧
    (onOrderRejectionTrace eng order).Pairwise dispatchOrdered := by
  refine ⟨?_, ?_, ?_⟩
  · intro k
    constructor
    · intro hmem
      rcases List.mem_append.mp hmem with h | h
      · rcases mem_stratLoop_iff.mp h with ⟨j, hj, hblk⟩
        rcases mem_stratRejectionBlock_iff.mp hblk with ⟨hp, heq | ⟨_, heq⟩⟩
        · have hjk : k.val = j := by simpa using heq
          have : (⟨j, hj⟩ : Fin eng.strategies.length) = k := Fin.ext hjk.symm
          rw [this] at hp
          exact hp
        · simp at heq
      · rcases mem_extLoop_iff.mp h with ⟨j, hj, hblk⟩
        rcases mem_extBlock_iff.mp hblk with heq | ⟨_, heq⟩ <;> simp at heq
    · intro hmatch
      exact List.mem_append_left _
        (stratLoop_mem k (mem_stratRejectionBlock_iff.mpr ⟨hmatch, Or.inl rfl⟩))
  · intro k
    exact List.mem_append_right _ (extLoop_mem k (mem_extBlock_iff.mpr (Or.inl rfl)))
  · refine List.pairwise_append.mpr ⟨?_, ?_, ?_⟩
    · exact pairwise_stratLoop (fun i s a ha g hg => stratRejectionBlock_group ha hg) 0 _
    · exact pairwise_extLoop extRejection_group 0 _
    · exact cross_strat_ext (fun i s a ha g hg => stratRejectionBlock_group ha hg)
        extRejection_group

/-- Witness for the amended C3 at a concrete engine and order. -/
theorem rejection_dispatch_filtered_witness :
    (EngineAction.stratRejection 0 ∈ onOrderRejectionTrace engRejEx ordRejEx ↔
      (engRejEx.strategies.get ⟨0, by decide⟩).participant_id = ordRejEx.participant_id) ∧
    EngineAction.extRejection 0 ∈ onOrderRejectionTrace engRejEx ordRejEx := by
  have h := rejection_dispatch_filtered engRejEx ordRejEx
  exact ⟨h.1 ⟨0, by decide⟩, h.2.1 ⟨0, by decide⟩⟩

/-- C4: within one dispatch of a trade or market-data event, every strategy
callback invocation comes before every external callback invocation, and
each of the two groups runs in registration order (`dispatchOrdered` over
the whole trace); moreover all strategy and external trade callbacks are
invoked, and likewise for market data while running. -/
theorem strategies_before_external_callbacks (eng : SimulationEngine) (t : Trade)
    (md : MarketData) :
    (onTradeTrace eng t).Pairwise dispatchOrdered ∧
    (onMarketDataTrace eng md).Pairwise dispatchOrdered ∧
    (∀ k : Fin eng.strategies.length,
      EngineAction.stratTrade k.val ∈ onTradeTrace eng t) ∧
    (∀ k : Fin eng.onTradeCallbacks.length,
      EngineAction.extTrade k.val ∈ onTradeTrace eng t) ∧
    (eng.running = true →
      (∀ k : Fin eng.strategies.length,
        EngineAction.stratHist k.val ∈ onMarketDataTrace eng md) ∧
      (∀ k : Fin eng.onMarketDataCallbacks.length,
        EngineAction.extMarketData k.val ∈ onMarketDataTrace eng md)) := by
  have hTradeGroup : ∀ i s a, a ∈ stratTradeBlock i s →
      ∀ g : Nat × Nat, actGroup a = some g → g = (0, i) :=
    fun _ _ _ ha _ hg => stratTradeBlock_group ha hg
  have hMDGroup : ∀ i s a, a ∈ stratMarketDataBlock i s →
      ∀ g : Nat × Nat, actGroup a = some g → g = (0, i) :=
    fun _ _ _ ha _ hg => stratMarketDataBlock_group ha hg
  refine ⟨?_, ?_, ?_, ?_, ?_⟩
  · refine List.Pairwise.cons ?_ ?_
    · intro b _
      refine dispatchOrdered_of_left_groupless ?_ b
      intro g hg
      simp [actGroup] at hg
    · refine List.pairwise_append.mpr ⟨?_, ?_, ?_⟩
      · exact pairwise_stratLoop hTradeGroup 0 _
      · exact pairwise_extLoop extTrade_group 0 _
      · exact cross_strat_ext hTradeGroup extTrade_group
  · cases hrb : eng.running with
    | false =>
      have : onMarketDataTrace eng md = [] := by simp [onMarketDataTrace, hrb]
      rw [this]
      exact List.Pairwise.nil
    | true =>
      have hmd : onMarketDataTrace eng md =
          (if eng.bookSymbols.contains md.symbol then
              [EngineAction.updateBookPrice md.symbol md.price] else [])
            ++ stratLoop stratMarketDataBlock 0 eng.strategies
            ++ extLoop .extMarketData 0 eng.onMarketDataCallbacks := by
        simp [onMarketDataTrace, hrb]
      rw [hmd, List.append_assoc]
      have hpre : ∀ a ∈ (if eng.bookSymbols.contains md.symbol then
          [EngineAction.updateBookPrice md.symbol md.price] else []),
          ∀ g : Nat × Nat, actGroup a = some g → False := by
        intro a ha g hg
        rcases ifs : eng.bookSymbols.contains md.symbol
        · rw [ifs] at ha
          simp at ha
        · rw [ifs] at ha
          simp at ha
          subst ha
          simp [actGroup] at hg
      refine List.pairwise_append.mpr ⟨?_, ?_, ?_⟩
      · refine List.pairwise_of_forall_mem_list ?_
        intro a ha b _
        exact dispatchOrdered_of_left_groupless (hpre a ha) b
      · refine List.pairwise_append.mpr ⟨?_, ?_, ?_⟩
        · exact pairwise_stratLoop hMDGroup 0 _
        · exact pairwise_extLoop extMarketData_group 0 _
        · exact cross_strat_ext hMDGroup extMarketData_group
      · intro a ha b _
        exact dispatchOrdered_of_left_groupless (hpre a ha) b
  · intro k
    exact List.mem_cons_of_mem _ (List.mem_append_left _
      (stratLoop_mem k (mem_stratTradeBlock_iff.mpr (Or.inl rfl))))
  · intro k
    exact List.mem_cons_of_mem _ (List.mem_append_right _
      (extLoop_mem k (mem_extBlock_iff.mpr (Or.inl rfl))))
  · intro hrun
    have hmd : onMarketDataTrace eng md =
        (if eng.bookSymbols.contains md.symbol then
            [EngineAction.updateBookPrice md.symbol md.price] else [])
          ++ stratLoop stratMarketDataBlock 0 eng.strategies
          ++ extLoop .extMarketData 0 eng.onMarketDataCallbacks := by
      simp [onMarketDataTrace, hrun]
    refine ⟨?_, ?_⟩
    · intro k
      rw [hmd]
      exact List.mem_append_left _ (List.mem_append_right _
        (stratLoop_mem k (mem_stratMarketDataBlock_iff.mpr (Or.inl rfl))))
    · intro k
      rw [hmd]
      exact List.mem_append_right _ (extLoop_mem k (mem_extBlock_iff.mpr (Or.inl rfl)))

/-- Witness for C4 at a concrete engine, trade and tick. -/
theorem strategies_before_external_callbacks_witness :
    (onTradeTrace engRejEx tradeEx).Pairwise dispatchOrdered ∧
    EngineAction.stratTrade 0 ∈ onTradeTrace engRejEx tradeEx := by
  have h := strategies_before_external_callbacks engRejEx tradeEx mdEx
  exact ⟨h.1, h.2.2.1 ⟨0, by decide⟩⟩

/-- C5: routing of market-data ticks by `_on_market_data`: when not running
the tick is dropped entirely (no book update, no callback); when running,
if the tick's symbol has an order book the book's `update_market_price` is
the first action of the dispatch (before any strategy or external
callback), no book update happens for symbols without a book, and every
registered strategy then receives the tick (its history update is always
invoked, and its `on_market_data` whenever the history update does not
raise). -/
theorem market_data_routing (eng : SimulationEngine) (md : MarketData) :
    (eng.running = false → onMarketDataTrace eng md = []) ∧
    (eng.running = true →
      (eng.bookSymbols.contains md.symbol = true →
        ∃ rest, onMarketDataTrace eng md =
          EngineAction.updateBookPrice md.symbol md.price :: rest) ∧
      (eng.bookSymbols.contains md.symbol = false →
        ∀ s p, EngineAction.updateBookPrice s p ∉ onMarketDataTrace eng md) ∧
      (∀ k : Fin eng.strategies.length,
        EngineAction.stratHist k.val ∈ onMarketDataTrace eng md ∧
        ((eng.strategies.get k).histRaises = false →
          EngineAction.stratMarketData k.val ∈ onMarketDataTrace eng md))) := by
  refine ⟨?_, ?_⟩
  · intro h
    simp [onMarketDataTrace, h]
  · intro hrun
    have hmd : onMarketDataTrace eng md =
        (if eng.bookSymbols.contains md.symbol then
            [EngineAction.updateBookPrice md.symbol md.price] else [])
          ++ stratLoop stratMarketDataBlock 0 eng.strategies
          ++ extLoop .extMarketData 0 eng.onMarketDataCallbacks := by
      simp [onMarketDataTrace, hrun]
    refine ⟨?_, ?_, ?_⟩
    · intro hc
      refine ⟨stratLoop stratMarketDataBlock 0 eng.strategies
          ++ extLoop .extMarketData 0 eng.onMarketDataCallbacks, ?_⟩
      rw [hmd, hc]
      simp
    · intro hc s p hmem
      have hc' : md.symbol ∉ eng.bookSymbols := by
        simpa using hc
      have hmd2 : onMarketDataTrace eng md =
          stratLoop stratMarketDataBlock 0 eng.strategies
            ++ extLoop .extMarketData 0 eng.onMarketDataCallbacks := by
        simp [onMarketDataTrace, hrun, hc']
      rw [hmd2] at hmem
      rcases List.mem_append.mp hmem with h | h
      · rcases mem_stratLoop_iff.mp h with ⟨j, hj, hblk⟩
        rcases mem_stratMarketDataBlock_iff.mp hblk with heq | ⟨_, heq⟩ | ⟨_, heq⟩ <;>
          simp at heq
      · rcases mem_extLoop_iff.mp h with ⟨j, hj, hblk⟩
        rcases mem_extBlock_iff.mp hblk with heq | ⟨_, heq⟩ <;> simp at heq
    · intro k
      rw [hmd]
      refine ⟨?_, ?_⟩
      · exact List.mem_append_left _ (List.mem_append_right _
          (stratLoop_mem k (mem_stratMarketDataBlock_iff.mpr (Or.inl rfl))))
      · intro hh
        exact List.mem_append_left _ (List.mem_append_right _
          (stratLoop_mem k (mem_stratMarketDataBlock_iff.mpr
            (Or.inr (Or.inl ⟨hh, rfl⟩)))))

/-- Witness for C5 at a concrete running engine and a tick whose symbol has
an order book. -/
theorem market_data_routing_witness :
    engRejEx.running = true ∧
    engRejEx.bookSymbols.contains mdEx.symbol = true ∧
    (∃ rest, onMarketDataTrace engRejEx mdEx =
      EngineAction.updateBookPrice mdEx.symbol mdEx.price :: rest) := by
  have h := market_data_routing engRejEx mdEx
  exact ⟨rfl, by decide, (h.2 rfl).1 (by decide)⟩

/-- C6: `BaseStrategy.submit_order` returns `None` and submits nothing when
the symbol has no order book; otherwise it constructs the order and calls
`add_order`, returning the order and recording it in `active_orders`
exactly when `add_order` accepts it, and returning `None` with
`active_orders` unchanged when `add_order` returns false. -/
theorem submit_order_spec (self : BaseStrategy) (symbol : String) (side : OrderSide)
    (quantity : ℤ) (order_type : OrderType) (price : ℚ) :
    (self.order_books symbol = none →
      submit_order self symbol side quantity order_type price =
        { result := none, state := self, calledAddOrder := false }) ∧
    (∀ book, self.order_books symbol = some book →
      (submit_order self symbol side quantity order_type price).calledAddOrder = true ∧
      (book.accepts (submittedOrder self book symbol side quantity order_type price) = true →
        (submit_order self symbol side quantity order_type price).result =
          some (submittedOrder self book symbol side quantity order_type price) ∧
        (submit_order self symbol side quantity order_type price).state.active_orders
            (submittedOrder self book symbol side quantity order_type price).id =
          some (submittedOrder self book symbol side quantity order_type price) ∧
        (∀ i, i ≠ (submittedOrder self book symbol side quantity order_type price).id →
          (submit_order self symbol side quantity order_type price).state.active_orders i =
            self.active_orders i)) ∧
      (book.accepts (submittedOrder self book symbol side quantity order_type price) = false →
        (submit_order self symbol side quantity order_type price).result = none ∧
        (submit_order self symbol side quantity order_type price).state = self)) := by
  refine ⟨?_, ?_⟩
  · intro h
    simp [submit_order, h]
  · intro book hb
    by_cases hacc : book.accepts (submittedOrder self book symbol side quantity order_type price) = true
    · refine ⟨?_, fun _ => ⟨?_, ?_, ?_⟩, fun hf => by simp [hacc] at hf⟩
      · simp [submit_order, hb, hacc]
      · simp [submit_order, hb, hacc]
      · simp [submit_order, hb, hacc]
      · intro i hi
        simp [submit_order, hb, hacc, hi]
    · have hf : book.accepts (submittedOrder self book symbol side quantity order_type price) = false := by
        simpa using hacc
      refine ⟨?_, fun ht => by simp [ht] at hf, fun _ => ⟨?_, ?_⟩⟩
      · simp [submit_order, hb, hf]
      · simp [submit_order, hb, hf]
      · simp [submit_order, hb, hf]

/-- Witness for C6 at a concrete strategy whose book accepts everything. -/
theorem submit_order_spec_witness :
    stratEx.order_books "AAPL" = some bookEx ∧
    bookEx.accepts (submittedOrder stratEx bookEx "AAPL" .BUY 10 .LIMIT 151) = true ∧
    (submit_order stratEx "AAPL" .BUY 10 .LIMIT 151).result =
      some (submittedOrder stratEx bookEx "AAPL" .BUY 10 .LIMIT 151) := by
  have h := submit_order_spec stratEx "AAPL" .BUY 10 .LIMIT 151
  exact ⟨rfl, rfl, ((h.2 bookEx rfl).2.1 rfl).1⟩

/-- C8: `SimulationEngine.start` raises `ValueError` iff the portfolio is
unset, the market-data engine is unset, or no order book exists; when it
raises the engine state is unchanged and no strategy is initialized, and
when it does not raise it sets `running`, the market-data callback, and
starts the market-data engine, initializing every strategy. -/
theorem start_raises_iff_unconfigured (eng : SimulationEngine) :
    ((startEngine eng).error.isSome = true ↔
      (eng.hasPortfolio = false ∨ eng.hasMarketDataEngine = false ∨
        eng.bookSymbols = [])) ∧
    ((startEngine eng).error.isSome = true →
      (startEngine eng).engine = eng ∧
      (startEngine eng).initializedStrategies = []) ∧
    ((startEngine eng).error = none →
      (startEngine eng).engine =
        { eng with running := true, mdeCallbackSet := true, mdeStarted := true } ∧
      (startEngine eng).initializedStrategies = List.range eng.strategies.length) := by
  by_cases h : (!eng.hasPortfolio || !eng.hasMarketDataEngine || eng.bookSymbols.isEmpty) = true
  · have hs : startEngine eng =
        { engine := eng
          error := some "Simulation not properly configured"
          initializedStrategies := [] } := by
      unfold startEngine
      rw [if_pos h]
    have hcond : eng.hasPortfolio = false ∨ eng.hasMarketDataEngine = false ∨
        eng.bookSymbols = [] := by
      simpa [List.isEmpty_iff, or_assoc] using h
    rw [hs]
    exact ⟨⟨fun _ => hcond, fun _ => rfl⟩, fun _ => ⟨rfl, rfl⟩,
      fun hnone => (Option.some_ne_none _ hnone).elim⟩
  · have hs : startEngine eng =
        { engine := { eng with running := true, mdeCallbackSet := true, mdeStarted := true }
          error := none
          initializedStrategies := List.range eng.strategies.length } := by
      unfold startEngine
      rw [if_neg h]
    have hcond : ¬(eng.hasPortfolio = false ∨ eng.hasMarketDataEngine = false ∨
        eng.bookSymbols = []) := by
      intro hc
      apply h
      rcases hc with hc | hc | hc <;> simp [hc]
    rw [hs]
    exact ⟨⟨fun habs => absurd habs (by simp), fun hc => absurd hc hcond⟩,
      fun habs => absurd habs (by simp), fun _ => ⟨rfl, rfl⟩⟩

/-- Witness for C8: a concrete engine without a portfolio makes `start`
raise and leaves the state unchanged, while `engRejEx` itself starts
cleanly. -/
theorem start_raises_iff_unconfigured_witness :
    (startEngine { engRejEx with hasPortfolio := false }).error.isSome = true ∧
    (startEngine { engRejEx with hasPortfolio := false }).engine =
      { engRejEx with hasPortfolio := false } ∧
    (startEngine engRejEx).error = none := by
  have h := start_raises_iff_unconfigured { engRejEx with hasPortfolio := false }
  have he : (startEngine { engRejEx with hasPortfolio := false }).error.isSome = true :=
    h.1.mpr (Or.inl rfl)
  exact ⟨he, (h.2.1 he).1, by decide⟩

/-- C9 counterexample: with one stored tick, `get_market_data_history` at
`lookback = 0` returns the whole stored history (Python `l[-0:]` is `l[0:]`),
so its length is not bounded by `min(lookback, 1000) = 0`. -/
theorem get_history_lookback_zero_violates_bound :
    ¬ (((get_market_data_history histEx "AAPL" 0).length : ℤ) ≤ min (0 : ℤ) 1000) := by
  decide

/-- C9 amended: `update_market_data_history` leaves the state unchanged for
untracked symbols, appends-and-truncates for tracked ones, and preserves the
invariant that each stored history holds at most 1000 entries; consequently
`get_market_data_history` returns at most `min(lookback, 1000)` of the most
recent ticks for every positive `lookback` (for `lookback ≤ 0` the Python
slice `history[-lookback:]` is not bounded by `lookback`; at `lookback = 0`
it returns the entire stored history). -/
theorem market_data_history_bounded (hist : String → Option (List MarketData))
    (md : MarketData) (s : String) (lookback : ℤ) (l : List MarketData)
    (hb : ∀ sym l', hist sym = some l' → l'.length ≤ 1000)
    (hl : 1 ≤ lookback) :
    (hist md.symbol = none → update_market_data_history hist md = hist) ∧
    (hist md.symbol = some l →
      update_market_data_history hist md md.symbol =
        some ((l ++ [md]).drop ((l.length + 1) - 1000))) ∧
    (∀ sym l', update_market_data_history hist md sym = some l' → l'.length ≤ 1000) ∧
    (((get_market_data_history hist s lookback).length : ℤ) ≤ min lookback 1000) := by
  refine ⟨?_, ?_, ?_, ?_⟩
  · intro h
    simp [update_market_data_history, h]
  · intro h
    simp only [update_market_data_history, h]
    rw [if_pos trivial]
    have hlen : (l ++ [md]).length = l.length + 1 := by simp
    by_cases hgt : (l ++ [md]).length > 1000
    · rw [if_pos hgt]
      simp only [pySliceFrom]
      rw [if_pos (by omega : (-1000 : ℤ) < 0)]
      refine congrArg some ?_
      refine congrArg (fun n => List.drop n (l ++ [md])) ?_
      omega
    · rw [if_neg hgt]
      rw [show (l.length + 1) - 1000 = 0 from by omega, List.drop_zero]
  · intro sym l' h
    rcases hmd : hist md.symbol with _ | l0
    · rw [update_market_data_history, hmd] at h
      exact hb sym l' h
    · simp only [update_market_data_history, hmd] at h
      by_cases hsym : sym = md.symbol
      · rw [if_pos hsym] at h
        have hl0 : l0.length ≤ 1000 := hb md.symbol l0 hmd
        have happ : (l0 ++ [md]).length = l0.length + 1 := by simp
        by_cases hgt : (l0 ++ [md]).length > 1000
        · rw [if_pos hgt] at h
          have : l' = pySliceFrom (l0 ++ [md]) (-1000) := by
            injection h with h'
            exact h'.symm
          rw [this, pySliceFrom, if_pos (by omega), List.length_drop]
          omega
        · rw [if_neg hgt] at h
          have : l' = l0 ++ [md] := by
            injection h with h'
            exact h'.symm
          rw [this]
          omega
      · rw [if_neg hsym] at h
        exact hb sym l' h
  · rcases hsf : hist s with _ | l0
    · simp [get_market_data_history, hsf]
      omega
    · have hl0 : l0.length ≤ 1000 := hb s l0 hsf
      rw [get_market_data_history, hsf]
      show ((pySliceFrom l0 (-lookback)).length : ℤ) ≤ min lookback 1000
      rw [pySliceFrom, if_pos (by omega), List.length_drop]
      omega

/-- Witness for the amended C9 at a concrete history and lookback. -/
theorem market_data_history_bounded_witness :
    (∀ sym l', histEx sym = some l' → l'.length ≤ 1000) ∧
    (1 : ℤ) ≤ 5 ∧
    ((get_market_data_history histEx "AAPL" 5).length : ℤ) ≤ min (5 : ℤ) 1000 := by
  have hb : ∀ sym l', histEx sym = some l' → l'.length ≤ 1000 := by
    intro sym l' h
    rw [histEx] at h
    by_cases hs : sym = "AAPL"
    · rw [if_pos hs] at h
      injection h with h'
      rw [← h']
      decide
    · rw [if_neg hs] at h
      cases h
  have h := market_data_history_bounded histEx
    { symbol := "AAPL", price := 150 } "AAPL" 5 [] hb (by decide)
  exact ⟨hb, by decide, h.2.2.2⟩

/-- C10: the quote prices computed by `MarketMakerStrategy._update_quotes`
always satisfy `bid_price ≥ 0.01` and `ask_price ≥ bid_price + 0.01` (hence
both are strictly positive and the ask is strictly above the bid), for all
current prices, positions and parameter values, whenever `max_position ≠ 0`
(the Python code divides by `max_position`). -/
theorem update_quotes_price_bounds (mm : MarketMakerStrategy) (current_price : ℚ)
    (current_position : ℤ) (hmax : mm.max_position ≠ 0) :
    (1 / 100 : ℚ) ≤ (updateQuotesPrices mm current_price current_position).1 ∧
    (updateQuotesPrices mm current_price current_position).1 + 1 / 100 ≤
      (updateQuotesPrices mm current_price current_position).2 ∧
    0 < (updateQuotesPrices mm current_price current_position).1 ∧
    (updateQuotesPrices mm current_price current_position).1 <
      (updateQuotesPrices mm current_price current_position).2 := by
  have h1 : (1 / 100 : ℚ) ≤ (updateQuotesPrices mm current_price current_position).1 := by
    simp only [updateQuotesPrices]
    exact le_max_right _ _
  have h2 : (updateQuotesPrices mm current_price current_position).1 + 1 / 100 ≤
      (updateQuotesPrices mm current_price current_position).2 := by
    simp only [updateQuotesPrices]
    exact le_max_right _ _
  refine ⟨h1, h2, lt_of_lt_of_le (by norm_num) h1, ?_⟩
  have : (updateQuotesPrices mm current_price current_position).1 <
      (updateQuotesPrices mm current_price current_position).1 + 1 / 100 := by
    linarith
  exact lt_of_lt_of_le this h2

/-- Witness for C10 at the market-maker parameters used by
`add_market_maker`. -/
theorem update_quotes_price_bounds_witness :
    mmEx.max_position ≠ 0 ∧
    (1 / 100 : ℚ) ≤ (updateQuotesPrices mmEx 150 0).1 ∧
    (updateQuotesPrices mmEx 150 0).1 + 1 / 100 ≤ (updateQuotesPrices mmEx 150 0).2 := by
  have h := update_quotes_price_bounds mmEx 150 0 (by decide)
  exact ⟨by decide, h.1, h.2.1⟩

theorem repChars_lt {n : Nat} (h : n < 10) : repChars n = [Nat.digitChar n] := by
  rw [repChars]
  rw [if_pos h]

theorem repChars_ge {n : Nat} (h : ¬ n < 10) :
    repChars n = repChars (n / 10) ++ [Nat.digitChar (n % 10)] := by
  conv_lhs => rw [repChars]
  rw [if_neg h]

theorem toDigitsCore_eq_repChars :
    ∀ (n f : Nat), n < f → ∀ (l : List Char),
      Nat.toDigitsCore 10 f n l = repChars n ++ l := by
  intro n
  induction n using Nat.strong_induction_on with
  | _ n ih =>
    intro f hf l
    match f with
    | 0 => omega
    | fuel + 1 =>
      simp only [Nat.toDigitsCore]
      by_cases h10 : n < 10
      · rw [if_pos (Nat.div_eq_of_lt h10)]
        rw [repChars_lt h10, Nat.mod_eq_of_lt h10]
        rfl
      · have hmod : n % 10 < 10 := Nat.mod_lt _ (by omega)
        have hdm := Nat.div_add_mod n 10
        have hdiv : n / 10 ≠ 0 := by
          intro h0
          rw [h0] at hdm
          omega
        rw [if_neg hdiv]
        have hlt : n / 10 < n := Nat.div_lt_self (by omega) (by omega)
        rw [ih (n / 10) hlt fuel (by omega) (Nat.digitChar (n % 10) :: l)]
        rw [repChars_ge h10, List.append_assoc]
        rfl

theorem repr_eq_repChars (n : Nat) : Nat.repr n = (repChars n).asString := by
  unfold Nat.repr Nat.toDigits
  rw [toDigitsCore_eq_repChars n (n + 1) (by omega) []]
  rw [List.append_nil]

theorem charDigitVal_digitChar {d : Nat} (h : d < 10) :
    charDigitVal (Nat.digitChar d) = d := by
  interval_cases d <;> rfl

theorem foldl_repChars (n : Nat) : ∀ a : Nat,
    (repChars n).foldl (fun acc c => 10 * acc + charDigitVal c) a =
      a * 10 ^ (repChars n).length + n := by
  induction n using Nat.strong_induction_on with
  | _ n ih =>
    intro a
    by_cases h10 : n < 10
    · rw [repChars_lt h10]
      simp [List.foldl, charDigitVal_digitChar h10]
      ring
    · rw [repChars_ge h10]
      rw [List.foldl_append]
      have hlt : n / 10 < n := Nat.div_lt_self (by omega) (by omega)
      rw [ih (n / 10) hlt a]
      have hmod : n % 10 < 10 := Nat.mod_lt _ (by omega)
      simp only [List.foldl, charDigitVal_digitChar hmod, List.length_append,
        List.length_cons, List.length_nil]
      rw [pow_succ]
      have hdm := Nat.div_add_mod n 10
      ring_nf
      omega

theorem listVal_repChars (n : Nat) : listVal (repChars n) = n := by
  have h := foldl_repChars n 0
  simpa [listVal] using h

theorem repr_inj {m n : Nat} (h : Nat.repr m = Nat.repr n) : m = n := by
  have hc : repChars m = repChars n := by
    have hd := congrArg String.data h
    rw [repr_eq_repChars, repr_eq_repChars] at hd
    exact hd
  have hm := listVal_repChars m
  rw [hc, listVal_repChars n] at hm
  exact hm.symm

theorem marketMakerId_inj {m n : Nat} (h : marketMakerId m = marketMakerId n) : m = n := by
  apply repr_inj
  unfold marketMakerId at h
  have hd := congrArg String.data h
  rw [String.data_append, String.data_append] at hd
  exact String.ext (List.append_cancel_left hd)

/-- C7: each `add_market_maker` call assigns the identifier
`"__market_maker_" + str(counter)` for the freshly incremented positive
counter; every such identifier starts with the reserved `"__market_maker"`
string, and two successive calls assign distinct identifiers (indeed
`marketMakerId` is injective in the counter). -/
theorem add_market_maker_reserved_id (eng : SimulationEngine) :
    (addMarketMaker eng).2 = marketMakerId (eng.market_makers + 1) ∧
    (addMarketMaker eng).1.market_makers = eng.market_makers + 1 ∧
    0 < (addMarketMaker eng).1.market_makers ∧
    (∃ t, (addMarketMaker eng).2 = "__market_maker" ++ t) ∧
    (addMarketMaker eng).2 ≠ (addMarketMaker (addMarketMaker eng).1).2 := by
  refine ⟨rfl, rfl, Nat.succ_pos _, ?_, ?_⟩
  · refine ⟨"_" ++ Nat.repr (eng.market_makers + 1), ?_⟩
    show marketMakerId (eng.market_makers + 1) = _
    unfold marketMakerId
    rw [show ("__market_maker_" : String) = "__market_maker" ++ "_" from rfl,
      String.append_assoc]
  · intro h
    rw [show (addMarketMaker eng).2 = marketMakerId (eng.market_makers + 1) from rfl,
      show (addMarketMaker (addMarketMaker eng).1).2 =
        marketMakerId (eng.market_makers + 1 + 1) from rfl] at h
    have := marketMakerId_inj h
    omega

/-- Witness for C7 at a concrete engine. -/
theorem add_market_maker_reserved_id_witness :
    (addMarketMaker engRejEx).2 = "__market_maker_1" ∧
    (∃ t, (addMarketMaker engRejEx).2 = "__market_maker" ++ t) := by
  have h := add_market_maker_reserved_id engRejEx
  refine ⟨?_, h.2.2.2.1⟩
  rw [h.1]
  rfl

theorem total_applyBuy (p : Portfolio) (buyer symbol : String) (qty : ℤ) (price : ℚ)
    (hb : buyer ∈ p.participants) (S : Finset String) (pm : String → ℚ) :
    portfolioTotalValue (applyBuy p buyer symbol qty price) S pm =
      portfolioTotalValue p S pm - qty * price +
        (if symbol ∈ S then (qty : ℚ) * pm symbol else 0) := by
  unfold portfolioTotalValue
  rw [← Finset.add_sum_erase _ _ (show buyer ∈ (applyBuy p buyer symbol qty price).participants from hb),
    ← Finset.add_sum_erase _ _ hb]
  have herase : ∑ pid ∈ (applyBuy p buyer symbol qty price).participants.erase buyer,
      ((applyBuy p buyer symbol qty price).cash pid +
        ∑ s ∈ S, ((applyBuy p buyer symbol qty price).position pid s : ℚ) * pm s) =
      ∑ pid ∈ p.participants.erase buyer,
        (p.cash pid + ∑ s ∈ S, (p.position pid s : ℚ) * pm s) := by
    refine Finset.sum_congr rfl ?_
    intro pid hpid
    have hne : pid ≠ buyer := Finset.ne_of_mem_erase hpid
    simp [applyBuy, hne]
  rw [herase]
  have hinner : ∑ s ∈ S, (((applyBuy p buyer symbol qty price).position buyer s : ℚ) * pm s) =
      (∑ s ∈ S, (p.position buyer s : ℚ) * pm s) +
        (if symbol ∈ S then (qty : ℚ) * pm symbol else 0) := by
    rw [← Finset.sum_ite_eq' S symbol (fun s => (qty : ℚ) * pm s), ← Finset.sum_add_distrib]
    refine Finset.sum_congr rfl ?_
    intro s _
    by_cases h : s = symbol
    · subst h
      simp only [applyBuy, if_pos rfl]
      push_cast
      ring
    · simp [applyBuy, h]
  rw [hinner]
  have hcash : (applyBuy p buyer symbol qty price).cash buyer = p.cash buyer - qty * price := by
    simp [applyBuy]
  rw [hcash]
  ring

theorem total_applySell (p : Portfolio) (seller symbol : String) (qty : ℤ) (price : ℚ)
    (hs : seller ∈ p.participants) (S : Finset String) (pm : String → ℚ) :
    portfolioTotalValue (applySell p seller symbol qty price) S pm =
      portfolioTotalValue p S pm + qty * price -
        (if symbol ∈ S then (qty : ℚ) * pm symbol else 0) := by
  unfold portfolioTotalValue
  rw [← Finset.add_sum_erase _ _ (show seller ∈ (applySell p seller symbol qty price).participants from hs),
    ← Finset.add_sum_erase _ _ hs]
  have herase : ∑ pid ∈ (applySell p seller symbol qty price).participants.erase seller,
      ((applySell p seller symbol qty price).cash pid +
        ∑ s ∈ S, ((applySell p seller symbol qty price).position pid s : ℚ) * pm s) =
      ∑ pid ∈ p.participants.erase seller,
        (p.cash pid + ∑ s ∈ S, (p.position pid s : ℚ) * pm s) := by
    refine Finset.sum_congr rfl ?_
    intro pid hpid
    have hne : pid ≠ seller := Finset.ne_of_mem_erase hpid
    simp [applySell, hne]
  rw [herase]
  have hinner : ∑ s ∈ S, (((applySell p seller symbol qty price).position seller s : ℚ) * pm s) =
      (∑ s ∈ S, (p.position seller s : ℚ) * pm s) -
        (if symbol ∈ S then (qty : ℚ) * pm symbol else 0) := by
    rw [← Finset.sum_ite_eq' S symbol (fun s => (qty : ℚ) * pm s)]
    rw [← Finset.sum_sub_distrib]
    refine Finset.sum_congr rfl ?_
    intro s _
    by_cases h : s = symbol
    · subst h
      simp only [applySell, if_pos rfl]
      push_cast
      ring
    · simp [applySell, h]
  rw [hinner]
  have hcash : (applySell p seller symbol qty price).cash seller = p.cash seller + qty * price := by
    simp [applySell]
  rw [hcash]
  ring

/-- C1 (spec-modelled, the ledger is native code): settling a trade debits
the buyer's cash by `qty * price` and credits the seller's by the same
amount while moving `qty` shares from seller to buyer; consequently the
aggregate mark-to-market value `Σ cash + Σ position * price` over the
participants is exactly preserved, for every symbol set and price map —
trades never change the aggregate, only initial seedings can. -/
theorem apply_trade_conserves_value (p : Portfolio) (buyer seller symbol : String)
    (qty : ℤ) (price : ℚ) (hb : buyer ∈ p.participants) (hs : seller ∈ p.participants)
    (hne : buyer ≠ seller) :
    ((applyTrade p buyer seller symbol qty price).cash buyer = p.cash buyer - qty * price) ∧
    ((applyTrade p buyer seller symbol qty price).cash seller = p.cash seller + qty * price) ∧
    ((applyTrade p buyer seller symbol qty price).position buyer symbol =
      p.position buyer symbol + qty) ∧
    ((applyTrade p buyer seller symbol qty price).position seller symbol =
      p.position seller symbol - qty) ∧
    (∀ (S : Finset String) (pm : String → ℚ),
      portfolioTotalValue (applyTrade p buyer seller symbol qty price) S pm =
        portfolioTotalValue p S pm) := by
  have hne' : seller ≠ buyer := hne.symm
  refine ⟨?_, ?_, ?_, ?_, ?_⟩
  · simp [applyTrade, applySell, applyBuy, hne]
  · simp [applyTrade, applySell, applyBuy, hne']
  · simp [applyTrade, applySell, applyBuy, hne]
  · simp [applyTrade, applySell, applyBuy, hne']
  · intro S pm
    unfold applyTrade
    rw [total_applySell _ seller symbol qty price
      (show seller ∈ (applyBuy p buyer symbol qty price).participants from hs) S pm]
    rw [total_applyBuy p buyer symbol qty price hb S pm]
    ring

/-- Witness for C1 at a concrete two-participant ledger and trade
(scenario S1 of the spec: 10 shares at 151). -/
theorem apply_trade_conserves_value_witness :
    "alice" ∈ pfEx.participants ∧ "bob" ∈ pfEx.participants ∧ "alice" ≠ "bob" ∧
    portfolioTotalValue (applyTrade pfEx "alice" "bob" "AAPL" 10 151) {"AAPL"}
        (fun _ => 151) =
      portfolioTotalValue pfEx {"AAPL"} (fun _ => 151) := by
  have h := apply_trade_conserves_value pfEx "alice" "bob" "AAPL" 10 151
    (by decide) (by decide) (by decide)
  exact ⟨by decide, by decide, by decide, h.2.2.2.2 {"AAPL"} (fun _ => 151)⟩
